import Mathlib

/-!
# Verification of the sales-data statistical analysis app

A shallow embedding of `src/app.py` (a Streamlit dashboard over a sales
table) together with proofs about its behaviour.

Modelling conventions:
* A pandas `DataFrame` appears at two levels of abstraction, matching the
  two ways the app builds one: the typed table produced by
  `generate_sample_data` is a `List SalesRecord`; an uploaded delimited
  file and the CSV export round-trip are modelled at the delimited-text
  level (`CsvTable`, cells as `List Char`), which is exactly what
  `pd.read_csv` / `DataFrame.to_csv` consume and produce.
* The `units_sold` series handed to the statistics helpers
  (`df['units_sold']`) is modelled as a `List ℚ`; the floating-point
  arithmetic of numpy/scipy is idealised as exact arithmetic over `ℚ`/`ℝ`,
  and a non-finite float result (`nan`, produced e.g. by `0.0/0.0` or by a
  reduction over an empty/one-element array with `ddof=1`) is modelled as
  `none : Option ℝ`.
* The numpy global PRNG (`np.random.seed` / `choice` / `poisson`) is
  abstracted as an explicit state machine `RNGSpec`; `np.random.seed(42)`
  discards the incoming state, which is what makes the generator
  deterministic.
* The scipy Student-t quantile `stats.t.ppf` and survival function
  `stats.t.sf` are transcendental; they enter the embedding as explicit
  function parameters `tppf`, `tsf`, with their mathematical properties
  (monotonicity, nonnegativity above the median) taken as hypotheses
  where a theorem needs them.
-/

namespace SalesApp

/-! ## Data model

One row of the sales table, as produced by `generate_sample_data`
(`src/app.py` lines 31-41).  `sale_date` is the day offset from
2023-01-01 (`pd.date_range(start='2023-01-01', periods=20, freq='D')`
yields offsets 0,1,2,...). -/

structure SalesRecord where
  product_id : ℕ
  product_name : String
  category : String
  units_sold : ℕ
  sale_date : ℕ
deriving DecidableEq

/-! ## Category filter (src/app.py lines 119-120)

`if filter_category: df_sales = df_sales[df_sales['category'].isin(filter_category)]`

The guard is Python truthiness of the multiselect list: an empty
selection skips the filter entirely. -/

def filter_category (F : List String) (t : List SalesRecord) : List SalesRecord :=
  if F.isEmpty then t
  else t.filter (fun r => decide (r.category ∈ F))

/-! ## Synthetic data generator (src/app.py lines 31-41)

The numpy global PRNG is abstracted: a state type `σ`, `seed n`
(modelling `np.random.seed(n)`, which replaces the global state),
`choice opts g` (modelling `np.random.choice(opts)`, one draw) and
`poisson lam g` (modelling one `np.random.poisson(lam=lam)` draw). -/

structure RNGSpec (σ : Type) where
  seed : ℕ → σ
  choice : List String → σ → String × σ
  poisson : ℚ → σ → ℕ × σ

/-- Draw `n` consecutive samples from a stateful generator, threading the
state left to right (numpy's `size=n` vectorised draw). -/
def drawN {σ α : Type} (draw : σ → α × σ) : ℕ → σ → List α × σ
  | 0, g => ([], g)
  | n + 1, g =>
    let p := draw g
    let rest := drawN draw n p.2
    (p.1 :: rest.1, rest.2)

def sampleCategories : List String := ["Electronics", "Clothing", "Home", "Sports"]

/-- `generate_sample_data` (src/app.py lines 31-41): reseeds the global
PRNG with 42 (discarding the incoming state `g`), draws 20 categories,
then 20 Poisson(20) counts from the continued stream, and assembles the
20 rows. -/
def generate_sample_data {σ : Type} (R : RNGSpec σ) (g : σ) : List SalesRecord :=
  let g0 := R.seed 42
  let catDraw := drawN (R.choice sampleCategories) 20 g0
  let unitDraw := drawN (R.poisson 20) 20 catDraw.2
  (List.range 20).map (fun i =>
    { product_id := i + 1
      product_name := "Product " ++ toString (i + 1)
      category := catDraw.1.getD i ""
      units_sold := unitDraw.1.getD i 0
      sale_date := i })

/-! ### Basic facts about `drawN` -/

theorem drawN_length {σ α : Type} (draw : σ → α × σ) :
    ∀ (n : ℕ) (g : σ), (drawN draw n g).1.length = n := by
  intro n
  induction n with
  | zero => intro g; rfl
  | succ k ih => intro g; simp [drawN, ih]

theorem drawN_all {σ α : Type} (draw : σ → α × σ) (P : α → Prop)
    (hP : ∀ g, P (draw g).1) :
    ∀ (n : ℕ) (g : σ), ∀ a ∈ (drawN draw n g).1, P a := by
  intro n
  induction n with
  | zero => intro g a ha; simp [drawN] at ha
  | succ k ih =>
    intro g a ha
    simp only [drawN, List.mem_cons] at ha
    rcases ha with h | h
    · exact h ▸ hP g
    · exact ih _ a h

theorem getD_mem_of_lt {α : Type} (l : List α) (i : ℕ) (d : α) (h : i < l.length) :
    l.getD i d ∈ l := by
  rw [List.getD_eq_getElem l d h]
  exact List.getElem_mem h

/-! ## Delimited text: `pd.read_csv` and `DataFrame.to_csv`

The uploaded file and the exported byte stream are plain delimited text.
We model text as `List Char` and a parsed frame as a header row plus data
rows of cells. -/

/-- A parsed delimited-text frame: `pd.read_csv`'s view of a file. -/
structure CsvTable where
  header : List (List Char)
  rows : List (List (List Char))
deriving DecidableEq

/-- Split a character list at every occurrence of `c` (the field/record
separator logic of the CSV tokenizer, for input with no quoting). Always
returns at least one (possibly empty) piece. -/
def splitOnChar (c : Char) : List Char → List (List Char)
  | [] => [[]]
  | x :: xs =>
    let r := splitOnChar c xs
    if x = c then [] :: r else (x :: r.headD []) :: r.tail

/-- Interleave the separator `c` between pieces (inverse of
`splitOnChar` on separator-free pieces). -/
def joinWith (c : Char) : List (List Char) → List Char
  | [] => []
  | [p] => p
  | p :: ps => p ++ c :: joinWith c ps

/-- `load_csv` (src/app.py lines 43-45): `pd.read_csv(file)`.  Splits the
stream into lines (skipping blank lines, pandas' `skip_blank_lines`
default), takes the first line as the header, tokenizes every other line
into fields, and fails (pandas `EmptyDataError` / tokenizer
`ParserError`) only when there is no data at all or a row has more
fields than the header.  No column name or dtype requirement is checked
anywhere in this path. -/
def load_csv (s : List Char) : Option CsvTable :=
  let ls := (splitOnChar '\n' s).filter (fun l => !l.isEmpty)
  match ls with
  | [] => none
  | h :: rest =>
    let header := splitOnChar ',' h
    let rows := rest.map (splitOnChar ',')
    if rows.all (fun r => r.length ≤ header.length) then some ⟨header, rows⟩ else none

/-- `download_df` (src/app.py lines 97-100): `df.to_csv(index=False)` —
the header line followed by one line per row, every line (the last
included) terminated by a newline; no quoting is needed for cells free
of separators and quotes. -/
def download_df (t : CsvTable) : List Char :=
  ((t.header :: t.rows).map (joinWith ',')).foldr (fun line acc => line ++ '\n' :: acc) []

/-- Column access `df[name]` on a parsed frame: `none` models the pandas
`KeyError` when the column is absent. -/
def getColumn (t : CsvTable) (name : List Char) : Option (List (List Char)) :=
  match t.header.indexOf? name with
  | none => none
  | some i => some (t.rows.map (fun r => r.getD i []))

/-- The category filter of src/app.py lines 119-120 as it acts on a
parsed uploaded frame: skipped entirely for an empty selection; for a
non-empty selection it keeps the rows whose `category` cell is in the
selection (`none` models the `KeyError` when the column is absent). -/
def filterCsv (F : List (List Char)) (t : CsvTable) : Option CsvTable :=
  if F.isEmpty then some t
  else
    match t.header.indexOf? ("category".toList) with
    | none => none
    | some i => some ⟨t.header, t.rows.filter (fun r => decide (r.getD i [] ∈ F))⟩

/-! ### Splitting/joining round-trip lemmas -/

theorem splitOnChar_ne_nil (c : Char) (l : List Char) : splitOnChar c l ≠ [] := by
  cases l with
  | nil => simp [splitOnChar]
  | cons x xs =>
    simp only [splitOnChar]
    by_cases h : x = c <;> simp [h]

theorem splitOnChar_append_cons (c : Char) (p rest : List Char) (hp : c ∉ p) :
    splitOnChar c (p ++ c :: rest) = p :: splitOnChar c rest := by
  induction p with
  | nil => simp [splitOnChar]
  | cons x xs ih =>
    have hx : x ≠ c := fun h => hp (h ▸ List.mem_cons_self x xs)
    have hxs : c ∉ xs := fun h => hp (List.mem_cons_of_mem x h)
    simp only [List.cons_append, splitOnChar, if_neg hx, List.append_eq]
    rw [ih hxs]
    simp

theorem splitOnChar_of_not_mem (c : Char) (p : List Char) (hp : c ∉ p) :
    splitOnChar c p = [p] := by
  induction p with
  | nil => rfl
  | cons x xs ih =>
    have hx : x ≠ c := fun h => hp (h ▸ List.mem_cons_self x xs)
    have hxs : c ∉ xs := fun h => hp (List.mem_cons_of_mem x h)
    simp only [splitOnChar, ih hxs, if_neg hx]
    simp

theorem splitOnChar_joinWith (c : Char) (ps : List (List Char)) (hne : ps ≠ [])
    (hc : ∀ p ∈ ps, c ∉ p) :
    splitOnChar c (joinWith c ps) = ps := by
  induction ps with
  | nil => exact absurd rfl hne
  | cons p ps ih =>
    cases ps with
    | nil =>
      simp only [joinWith]
      exact splitOnChar_of_not_mem c p (hc p (List.mem_cons_self p []))
    | cons q qs =>
      have hjoin : joinWith c (p :: q :: qs) = p ++ c :: joinWith c (q :: qs) := rfl
      rw [hjoin, splitOnChar_append_cons c p _ (hc p (List.mem_cons_self p _)),
        ih (by simp) (fun r hr => hc r (List.mem_cons_of_mem p hr))]

theorem splitOnChar_terminated (c : Char) (lines : List (List Char))
    (hc : ∀ l ∈ lines, c ∉ l) :
    splitOnChar c (lines.foldr (fun line acc => line ++ c :: acc) []) = lines ++ [[]] := by
  induction lines with
  | nil => rfl
  | cons l ls ih =>
    simp only [List.foldr_cons]
    rw [splitOnChar_append_cons c l _ (hc l (List.mem_cons_self l ls)),
      ih (fun r hr => hc r (List.mem_cons_of_mem l hr))]
    rfl

/-! ## Descriptive statistics (src/app.py lines 47-52)

`calculate_descriptive_stats` works on the series `df['units_sold']`,
modelled as a `List ℚ`.  pandas semantics:
* `Series.mean()` / `Series.median()` of an empty series are `NaN`
  (modelled as `none`);
* `Series.mode()` returns the sorted (ascending) list of the values with
  maximal multiplicity, empty for an empty series, and the code takes
  `.iloc[0]` of it, falling back to `np.nan` when it is empty. -/

def listMean (xs : List ℚ) : ℚ := xs.sum / xs.length

def seriesMean (xs : List ℚ) : Option ℚ :=
  if xs.isEmpty then none else some (listMean xs)

/-- pandas `Series.median()`: sort, take the middle element (odd length)
or the average of the two middle elements (even length); `NaN` on an
empty series. -/
def seriesMedian (xs : List ℚ) : Option ℚ :=
  let s := List.insertionSort (· ≤ ·) xs
  let n := xs.length
  if n = 0 then none
  else if n % 2 = 1 then some (s.getD (n / 2) 0)
  else some ((s.getD (n / 2 - 1) 0 + s.getD (n / 2) 0) / 2)

/-- The maximal multiplicity of any value in the series. -/
def maxCount (xs : List ℚ) : ℕ :=
  (xs.dedup.map (fun v => xs.count v)).foldr max 0

/-- pandas `Series.mode()`: the distinct values of maximal multiplicity,
sorted ascending. -/
def seriesModeValues (xs : List ℚ) : List ℚ :=
  List.insertionSort (· ≤ ·) (xs.dedup.filter (fun v => decide (xs.count v = maxCount xs)))

/-- `df['units_sold'].mode().iloc[0] if not ... .mode().empty else np.nan`
(src/app.py line 51). -/
def seriesMode (xs : List ℚ) : Option ℚ := (seriesModeValues xs).head?

/-- The three central-tendency values returned by
`calculate_descriptive_stats` (the `describe()` summary frame is
presentational and repeats `mean`). -/
structure DescStats where
  mean_val : Option ℚ
  median_val : Option ℚ
  mode_val : Option ℚ
deriving DecidableEq

/-- `calculate_descriptive_stats` (src/app.py lines 47-52). -/
def calculate_descriptive_stats (xs : List ℚ) : DescStats :=
  { mean_val := seriesMean xs
    median_val := seriesMedian xs
    mode_val := seriesMode xs }

/-! ## Inferential statistics (src/app.py lines 54-63)

All quantities live in `ℝ`; a `NaN` float (from `ddof=1` reductions with
`n ≤ 1`, `t.ppf` with nonpositive degrees of freedom, or the `0/0` of a
zero-variance t-statistic) is modelled as `none`. -/

/-- Sum of squared deviations from the mean, `Σ (x - x̄)²`. -/
def ssd (xs : List ℚ) : ℚ := (xs.map (fun x => (x - listMean xs) ^ 2)).sum

/-- Sample standard deviation with divisor `n - 1`
(`np.std(a, ddof=1)`, the `std` column of `describe()`); `NaN` for
`n ≤ 1`. -/
noncomputable def sampleStd (xs : List ℚ) : Option ℝ :=
  if xs.length ≤ 1 then none
  else some (Real.sqrt ((ssd xs : ℝ) / ((xs.length : ℝ) - 1)))

/-- The finite value of `scipy.stats.sem(a, ddof=1)` for `n ≥ 2`:
`np.std(a, ddof=1) / np.sqrt(n)`. -/
noncomputable def semVal (xs : List ℚ) : ℝ :=
  Real.sqrt ((ssd xs : ℝ) / ((xs.length : ℝ) - 1)) / Real.sqrt (xs.length : ℝ)

/-- `scipy.stats.sem(a, ddof=1)` (src/app.py line 57): `NaN` when
`n ≤ 1` (the `ddof=1` variance divides by `n - 1`). -/
noncomputable def sem (xs : List ℚ) : Option ℝ :=
  if xs.length ≤ 1 then none else some (semVal xs)

/-- The result record of `calculate_inferential_stats`: the confidence
interval `(ci_lower, ci_upper)` and the one-sample t-test
`(t_stat, p_val)`. -/
structure InferResult where
  ci_lower : Option ℝ
  ci_upper : Option ℝ
  t_stat : Option ℝ
  p_val : Option ℝ

/-- `calculate_inferential_stats` (src/app.py lines 54-63), parameterized
by the scipy Student-t quantile `tppf q df` (`stats.t.ppf(q, df)`) and
survival function `tsf x df` (`stats.t.sf(x, df)`), both taken at
degrees of freedom `df = n - 1 ≥ 1` (for `df ≤ 0` scipy returns `NaN`,
which the `n ≤ 1` guards model).  `stats.ttest_1samp` computes
`t = (x̄ - μ) / denom` with `denom = sqrt(var(ddof=1)/n)` (the same
value as `sem`); when `denom = 0` the float division is `0/0` or `±∞`,
i.e. non-finite, modelled as `none`. -/
noncomputable def calculate_inferential_stats (tppf tsf : ℝ → ℕ → ℝ)
    (xs : List ℚ) (confidence_level : ℝ) (test_mean : ℝ) : InferResult :=
  let n := xs.length
  let mean_val : ℝ := (listMean xs : ℝ)
  let se : Option ℝ := sem xs
  let t_crit : Option ℝ :=
    if n ≤ 1 then none else some (tppf ((1 + confidence_level) / 2) (n - 1))
  let margin : Option ℝ :=
    match t_crit, se with
    | some a, some b => some (a * b)
    | _, _ => none
  let t_stat : Option ℝ :=
    match se with
    | some s => if s = 0 then none else some ((mean_val - test_mean) / s)
    | none => none
  let p_val : Option ℝ :=
    match t_stat with
    | some t => some (2 * tsf |t| (n - 1))
    | none => none
  { ci_lower := margin.map (fun m => mean_val - m)
    ci_upper := margin.map (fun m => mean_val + m)
    t_stat := t_stat
    p_val := p_val }

/-- The finite confidence-interval endpoints produced for `n ≥ 2`:
`(x̄ - t_crit · sem, x̄ + t_crit · sem)`. -/
noncomputable def ciVals (tppf : ℝ → ℕ → ℝ) (xs : List ℚ) (c : ℝ) : ℝ × ℝ :=
  ((listMean xs : ℝ) - tppf ((1 + c) / 2) (xs.length - 1) * semVal xs,
   (listMean xs : ℝ) + tppf ((1 + c) / 2) (xs.length - 1) * semVal xs)

/-! ### The spec's formulas, stated in its own words (section 4.3)

"Let n = row count, x̄ = mean(`units_sold`), s = sample standard
deviation (divisor n−1), SE = s / sqrt(n).  Critical value t* = the
two-tailed Student's t quantile at cumulative probability
(1+confidenceLevel)/2 with n−1 degrees of freedom.  Margin of error =
t* × SE.  Confidence interval = (x̄ − margin, x̄ + margin)." -/

noncomputable def specMean (xs : List ℚ) : ℝ :=
  (xs.map (fun x : ℚ => (x : ℝ))).sum / (xs.length : ℝ)

noncomputable def specSampleStd (xs : List ℚ) : ℝ :=
  Real.sqrt
    ((xs.map (fun x : ℚ => ((x : ℝ) - specMean xs) ^ 2)).sum / ((xs.length : ℝ) - 1))

noncomputable def specSE (xs : List ℚ) : ℝ :=
  specSampleStd xs / Real.sqrt (xs.length : ℝ)

noncomputable def specCI (tppf : ℝ → ℕ → ℝ) (xs : List ℚ) (c : ℝ) : ℝ × ℝ :=
  let tstar := tppf ((1 + c) / 2) (xs.length - 1)
  (specMean xs - tstar * specSE xs, specMean xs + tstar * specSE xs)

/-! ## Helper lemmas -/

theorem le_foldr_max (l : List ℕ) (a : ℕ) (ha : a ∈ l) : a ≤ l.foldr max 0 := by
  induction l with
  | nil => simp at ha
  | cons x xs ih =>
    rcases List.mem_cons.mp ha with h | h
    · exact h ▸ le_max_left x (xs.foldr max 0)
    · exact le_trans (ih h) (le_max_right x (xs.foldr max 0))

theorem foldr_max_mem (l : List ℕ) (hl : l ≠ []) : l.foldr max 0 ∈ l := by
  induction l with
  | nil => exact absurd rfl hl
  | cons x xs ih =>
    cases xs with
    | nil => simp
    | cons y ys =>
      have hfold : (x :: y :: ys).foldr max 0 = max x ((y :: ys).foldr max 0) := rfl
      rcases max_choice x ((y :: ys).foldr max 0) with h | h
      · rw [hfold, h]; exact List.mem_cons_self _ _
      · rw [hfold, h]; exact List.mem_cons_of_mem _ (ih (by simp))

theorem count_le_maxCount (xs : List ℚ) (v : ℚ) (hv : v ∈ xs) :
    xs.count v ≤ maxCount xs := by
  apply le_foldr_max
  exact List.mem_map_of_mem _ (List.mem_dedup.mpr hv)

theorem maxCount_attained (xs : List ℚ) (hxs : xs ≠ []) :
    ∃ v ∈ xs.dedup, xs.count v = maxCount xs := by
  have hd : xs.dedup ≠ [] := by
    simpa [List.dedup_eq_nil] using hxs
  have hmem : maxCount xs ∈ xs.dedup.map (fun v => xs.count v) :=
    foldr_max_mem _ (by simpa using hd)
  rcases List.mem_map.mp hmem with ⟨v, hv, hcount⟩
  exact ⟨v, hv, hcount⟩

/-! ## Claim theorems -/

/-- C2: for every non-empty series the mode returned by
`calculate_descriptive_stats` is the smallest value among the most
frequent `units_sold` values; on `[20,20,20,25,25,30]` it is `20`; on
the empty series the mode is absent (`NaN`) rather than an error. -/
theorem c2_mode_smallest_most_frequent :
    (∀ xs : List ℚ, xs ≠ [] → ∃ m, seriesMode xs = some m ∧ m ∈ xs ∧
      (∀ v ∈ xs, xs.count v ≤ xs.count m) ∧
      (∀ v ∈ xs, xs.count v = xs.count m → m ≤ v)) ∧
    (calculate_descriptive_stats [20, 20, 20, 25, 25, 30]).mode_val = some 20 ∧
    (calculate_descriptive_stats []).mode_val = none := by
  refine ⟨?_, by decide, rfl⟩
  intro xs hxs
  obtain ⟨v, hvdedup, hvcount⟩ := maxCount_attained xs hxs
  have hvfilter : v ∈ xs.dedup.filter (fun v => decide (xs.count v = maxCount xs)) :=
    List.mem_filter.mpr ⟨hvdedup, by simpa using hvcount⟩
  have hvsort : v ∈ seriesModeValues xs := by
    unfold seriesModeValues
    simpa using hvfilter
  obtain ⟨m, rest, hlist⟩ : ∃ m rest, seriesModeValues xs = m :: rest := by
    cases h : seriesModeValues xs with
    | nil => rw [h] at hvsort; simp at hvsort
    | cons m rest => exact ⟨m, rest, rfl⟩
  have hmsort : m ∈ seriesModeValues xs := by
    rw [hlist]; exact List.mem_cons_self _ _
  have hmfilter : m ∈ xs.dedup.filter (fun v => decide (xs.count v = maxCount xs)) := by
    have := hmsort
    unfold seriesModeValues at this
    simpa using this
  have hmdedup : m ∈ xs.dedup := (List.mem_filter.mp hmfilter).1
  have hmcount : xs.count m = maxCount xs := by
    simpa using (List.mem_filter.mp hmfilter).2
  have hsorted : List.Sorted (· ≤ ·) (seriesModeValues xs) :=
    List.sorted_insertionSort _ _
  refine ⟨m, by rw [seriesMode, hlist]; rfl, List.mem_dedup.mp hmdedup, ?_, ?_⟩
  · intro w hw
    rw [hmcount]
    exact count_le_maxCount xs w hw
  · intro w hw hwcount
    have hwfilter : w ∈ xs.dedup.filter (fun v => decide (xs.count v = maxCount xs)) :=
      List.mem_filter.mpr ⟨List.mem_dedup.mpr hw, by simp [hwcount, hmcount]⟩
    have hwsort : w ∈ seriesModeValues xs := by
      unfold seriesModeValues
      simpa using hwfilter
    rw [hlist] at hwsort hsorted
    rcases List.mem_cons.mp hwsort with h | h
    · exact h ▸ le_refl m
    · exact List.rel_of_sorted_cons hsorted w h

/-- C2 witness: the general statement applied to the concrete series
`[20,20,20,25,25,30]` of the claim. -/
theorem c2_mode_witness :
    ∃ m, seriesMode [20, 20, 20, 25, 25, 30] = some m ∧
      m ∈ ([20, 20, 20, 25, 25, 30] : List ℚ) ∧
      (∀ v ∈ ([20, 20, 20, 25, 25, 30] : List ℚ),
        ([20, 20, 20, 25, 25, 30] : List ℚ).count v
          ≤ ([20, 20, 20, 25, 25, 30] : List ℚ).count m) ∧
      (∀ v ∈ ([20, 20, 20, 25, 25, 30] : List ℚ),
        ([20, 20, 20, 25, 25, 30] : List ℚ).count v
          = ([20, 20, 20, 25, 25, 30] : List ℚ).count m → m ≤ v) :=
  c2_mode_smallest_most_frequent.1 [20, 20, 20, 25, 25, 30] (by decide)

/-- C7: a non-empty category filter retains exactly the rows whose
category is in the filter set, preserving relative order (the result is
literally `List.filter` of the table, a sublist); the empty filter is
the identity; and filtering is idempotent. -/
theorem c7_filter_semantics (F : List String) (t : List SalesRecord) :
    (F ≠ [] →
      filter_category F t = t.filter (fun r => decide (r.category ∈ F)) ∧
      (filter_category F t).Sublist t ∧
      (∀ r ∈ filter_category F t, r ∈ t ∧ r.category ∈ F) ∧
      (∀ r ∈ t, r.category ∈ F → r ∈ filter_category F t)) ∧
    filter_category [] t = t ∧
    filter_category F (filter_category F t) = filter_category F t := by
  constructor
  · intro hF
    have hne : F.isEmpty = false := by simpa [List.isEmpty_iff] using hF
    have heq : filter_category F t = t.filter (fun r => decide (r.category ∈ F)) := by
      simp [filter_category, hne]
    refine ⟨heq, by rw [heq]; exact List.filter_sublist t, ?_, ?_⟩
    · intro r hr
      rw [heq] at hr
      have := List.mem_filter.mp hr
      exact ⟨this.1, by simpa using this.2⟩
    · intro r hrt hrc
      rw [heq]
      exact List.mem_filter.mpr ⟨hrt, by simpa using hrc⟩
  · refine ⟨by simp [filter_category], ?_⟩
    by_cases h : F.isEmpty
    · simp [filter_category, h]
    · simp [filter_category, h, List.filter_filter]

/-- C7 witness: the filter applied to a concrete two-row table with a
concrete non-empty filter set and with the empty filter set. -/
theorem c7_filter_witness :
    filter_category ["Home"]
        [⟨1, "Product 1", "Home", 20, 0⟩, ⟨2, "Product 2", "Sports", 30, 1⟩]
      = ([⟨1, "Product 1", "Home", 20, 0⟩, ⟨2, "Product 2", "Sports", 30, 1⟩] :
          List SalesRecord).filter (fun r => decide (r.category ∈ ["Home"])) ∧
    filter_category []
        [⟨1, "Product 1", "Home", 20, 0⟩, ⟨2, "Product 2", "Sports", 30, 1⟩]
      = [⟨1, "Product 1", "Home", 20, 0⟩, ⟨2, "Product 2", "Sports", 30, 1⟩] :=
  ⟨((c7_filter_semantics ["Home"]
      [⟨1, "Product 1", "Home", 20, 0⟩, ⟨2, "Product 2", "Sports", 30, 1⟩]).1
      (by decide)).1,
   (c7_filter_semantics ["Home"]
      [⟨1, "Product 1", "Home", 20, 0⟩, ⟨2, "Product 2", "Sports", 30, 1⟩]).2.1⟩

/-- C10: a non-empty filter only deletes whole rows: the result is a
sublist of the input (same relative order, no new or modified rows) and
every surviving row is a row of the original table with every one of
its five fields unchanged.  (The embedding is purely functional, so the
original table itself is untouched by construction.) -/
theorem c10_filter_preserves_rows (F : List String) (t : List SalesRecord) (hF : F ≠ []) :
    (filter_category F t).Sublist t ∧
    ∀ r ∈ filter_category F t, r ∈ t ∧
      ∃ orig ∈ t, orig.product_id = r.product_id ∧ orig.product_name = r.product_name ∧
        orig.category = r.category ∧ orig.units_sold = r.units_sold ∧
        orig.sale_date = r.sale_date := by
  have hne : F.isEmpty = false := by simpa [List.isEmpty_iff] using hF
  have heq : filter_category F t = t.filter (fun r => decide (r.category ∈ F)) := by
    simp [filter_category, hne]
  constructor
  · rw [heq]; exact List.filter_sublist t
  · intro r hr
    rw [heq] at hr
    have hrt : r ∈ t := (List.mem_filter.mp hr).1
    exact ⟨hrt, r, hrt, rfl, rfl, rfl, rfl, rfl⟩

/-- C10 witness: the sublist fact at a concrete table and filter. -/
theorem c10_filter_witness :
    (filter_category ["Home"]
        [⟨1, "Product 1", "Home", 20, 0⟩, ⟨2, "Product 2", "Sports", 30, 1⟩]).Sublist
      [⟨1, "Product 1", "Home", 20, 0⟩, ⟨2, "Product 2", "Sports", 30, 1⟩] :=
  (c10_filter_preserves_rows ["Home"]
    [⟨1, "Product 1", "Home", 20, 0⟩, ⟨2, "Product 2", "Sports", 30, 1⟩] (by decide)).1

/-- C9: the synthetic generator is deterministic — it reseeds the PRNG
with the fixed seed 42, so its output is independent of the incoming
PRNG state — and produces exactly 20 rows with `product_id` `1..20`,
`product_name` `"Product i"`, `sale_date` the consecutive day offsets
`0..19` from 2023-01-01, and every `category` drawn from
{Electronics, Clothing, Home, Sports} (categories are drawn before the
Poisson counts by construction: the count draws consume the state left
by the category draws). -/
theorem c9_generator_deterministic {σ : Type} (R : RNGSpec σ)
    (hchoice : ∀ (opts : List String) (g : σ), opts ≠ [] → (R.choice opts g).1 ∈ opts)
    (g₁ g₂ : σ) :
    generate_sample_data R g₁ = generate_sample_data R g₂ ∧
    (generate_sample_data R g₁).length = 20 ∧
    (generate_sample_data R g₁).map SalesRecord.product_id
      = (List.range 20).map (fun i => i + 1) ∧
    (generate_sample_data R g₁).map SalesRecord.product_name
      = (List.range 20).map (fun i => "Product " ++ toString (i + 1)) ∧
    (generate_sample_data R g₁).map SalesRecord.sale_date = List.range 20 ∧
    ∀ r ∈ generate_sample_data R g₁, r.category ∈ sampleCategories := by
  refine ⟨rfl, by simp [generate_sample_data], ?_, ?_, ?_, ?_⟩
  · simp [generate_sample_data, List.map_map, Function.comp]
  · simp [generate_sample_data, List.map_map, Function.comp]
  · simp only [generate_sample_data, List.map_map]
    exact List.map_id (List.range 20)
  · intro r hr
    simp only [generate_sample_data, List.mem_map, List.mem_range] at hr
    obtain ⟨i, hi, rfl⟩ := hr
    have hlen : (drawN (R.choice sampleCategories) 20 (R.seed 42)).1.length = 20 :=
      drawN_length _ _ _
    have hmem : (drawN (R.choice sampleCategories) 20 (R.seed 42)).1.getD i ""
        ∈ (drawN (R.choice sampleCategories) 20 (R.seed 42)).1 :=
      getD_mem_of_lt _ _ _ (by rw [hlen]; exact hi)
    exact drawN_all _ (fun a => a ∈ sampleCategories)
      (fun g => hchoice sampleCategories g (by simp [sampleCategories])) 20 _ _ hmem

/-- A concrete PRNG instance for the C9 witness: the state is a counter,
`choice` picks by the counter modulo the option count, `poisson` returns
the counter. -/
def rngDemo : RNGSpec ℕ where
  seed := fun n => n
  choice := fun opts g => (opts.getD (g % opts.length) "", g + 1)
  poisson := fun _ g => (g, g + 1)

/-- C9 witness: two generations from distinct incoming PRNG states of a
concrete generator coincide, and the table has 20 rows. -/
theorem c9_generator_witness :
    generate_sample_data rngDemo 0 = generate_sample_data rngDemo 1 ∧
    (generate_sample_data rngDemo 0).length = 20 := by
  have h := c9_generator_deterministic rngDemo
    (fun opts g h =>
      getD_mem_of_lt _ _ _ (Nat.mod_lt _ (List.length_pos.mpr h))) 0 1
  exact ⟨h.1, h.2.1⟩

/-- An uploaded delimited file that parses fine but has neither a
`units_sold` nor a `category` column. -/
def schemalessUpload : List Char := ("product_id,product_name\n1,A\n").toList

/-- The frame `pd.read_csv` builds from `schemalessUpload`. -/
def schemalessTable : CsvTable :=
  ⟨["product_id".toList, "product_name".toList], [["1".toList, "A".toList]]⟩

/-- C1 counterexample: the load path (`load_csv`, i.e. `pd.read_csv`
with no schema validation) SUCCEEDS on an upload whose columns lack
both `units_sold` and `category` — it does not fail with a ParseError
as the claim states. -/
theorem c1_load_counterexample :
    load_csv schemalessUpload = some schemalessTable ∧
    "units_sold".toList ∉ schemalessTable.header ∧
    "category".toList ∉ schemalessTable.header := by
  refine ⟨by decide, by decide, by decide⟩

/-- C1 amended: `load_csv` performs no schema validation, so a
schema-mismatched upload is ingested; the missing `units_sold` column
surfaces only downstream, when the statistics calculators' column
lookup `df['units_sold']` fails (a pandas `KeyError`, surfaced by the
framework as an uncaught exception after the raw table has already been
rendered). -/
theorem c1_amended_error_surfaces_downstream (s : List Char) (t : CsvTable)
    (hload : load_csv s = some t)
    (hmissing : "units_sold".toList ∉ t.header) :
    getColumn t ("units_sold".toList) = none := by
  have hidx : t.header.indexOf? ("units_sold".toList) = none := by
    rw [List.indexOf?_eq_none_iff]
    intro x hx
    simp only [beq_iff_eq]
    intro hEq
    exact hmissing (hEq ▸ hx)
  unfold getColumn
  rw [hidx]

/-- C1 amended witness: the schema-less upload loads successfully and
its `units_sold` lookup fails downstream. -/
theorem c1_amended_witness :
    getColumn schemalessTable ("units_sold".toList) = none :=
  c1_amended_error_surfaces_downstream schemalessUpload schemalessTable
    (by decide) (by decide)

theorem mem_joinWith (d : Char) (ps : List (List Char)) :
    ∀ c ∈ joinWith d ps, c = d ∨ ∃ p ∈ ps, c ∈ p := by
  induction ps with
  | nil => intro c hc; simp [joinWith] at hc
  | cons p ps ih =>
    intro c hc
    cases ps with
    | nil =>
      simp only [joinWith] at hc
      exact Or.inr ⟨p, List.mem_cons_self _ _, hc⟩
    | cons q qs =>
      have hj : joinWith d (p :: q :: qs) = p ++ d :: joinWith d (q :: qs) := rfl
      rw [hj] at hc
      rcases List.mem_append.mp hc with h1 | h1
      · exact Or.inr ⟨p, List.mem_cons_self _ _, h1⟩
      · rcases List.mem_cons.mp h1 with h2 | h2
        · exact Or.inl h2
        · rcases ih c h2 with h3 | ⟨r, hr, hcr⟩
          · exact Or.inl h3
          · exact Or.inr ⟨r, List.mem_cons_of_mem _ hr, hcr⟩

theorem joinWith_ne_nil (c : Char) (p q : List Char) (ps : List (List Char)) :
    joinWith c (p :: q :: ps) ≠ [] := by
  have hj : joinWith c (p :: q :: ps) = p ++ c :: joinWith c (q :: ps) := rfl
  rw [hj]
  simp

/-- A delimited-text cell that needs no quoting: free of the field
separator, the record separator, the quote character and the carriage
return — on such cells `DataFrame.to_csv` emits the cell verbatim. -/
def csvSafe (cell : List Char) : Prop :=
  ',' ∉ cell ∧ '\n' ∉ cell ∧ '"' ∉ cell ∧ '\r' ∉ cell

instance : DecidablePred csvSafe := fun cell => by
  unfold csvSafe
  infer_instance

/-- C6: encoding a table with `download_df` (`to_csv(index=False)`) and
decoding the byte stream with the resolver's parse path (`load_csv`,
i.e. `pd.read_csv`) reproduces the original table exactly — same rows,
same values, same row and column order — and re-filtering with the
empty category filter leaves it untouched.  The hypotheses say the
table has the full-width rows of the sales schema (no missing fields,
at least two columns) and that every cell is quoting-free, which holds
for all values of the sales schema (numerals, names, category labels,
ISO dates). -/
theorem c6_export_roundtrip (t : CsvTable) (hw : 2 ≤ t.header.length)
    (hrows : ∀ r ∈ t.rows, r.length = t.header.length)
    (hsafeH : ∀ p ∈ t.header, csvSafe p)
    (hsafeR : ∀ r ∈ t.rows, ∀ p ∈ r, csvSafe p) :
    load_csv (download_df t) = some t ∧ filterCsv [] t = some t := by
  refine ⟨?_, rfl⟩
  have hsafeAll : ∀ r ∈ t.header :: t.rows, ∀ p ∈ r, csvSafe p := by
    intro r hr
    rcases List.mem_cons.mp hr with h | h
    · exact h ▸ hsafeH
    · exact hsafeR r h
  have hlen2 : ∀ r ∈ t.header :: t.rows, 2 ≤ r.length := by
    intro r hr
    rcases List.mem_cons.mp hr with h | h
    · exact h ▸ hw
    · exact (hrows r h) ▸ hw
  have hnl : ∀ l ∈ (t.header :: t.rows).map (joinWith ','), '\n' ∉ l := by
    intro l hl hmem
    rcases List.mem_map.mp hl with ⟨r, hr, rfl⟩
    rcases mem_joinWith ',' r '\n' hmem with h | ⟨p, hp, hcp⟩
    · exact (by decide : ('\n' : Char) ≠ ',') h
    · exact (hsafeAll r hr p hp).2.1 hcp
  have hne : ∀ l ∈ (t.header :: t.rows).map (joinWith ','), l ≠ [] := by
    intro l hl
    rcases List.mem_map.mp hl with ⟨r, hr, rfl⟩
    match r, hlen2 r hr with
    | p :: q :: ps, _ => exact joinWith_ne_nil ',' p q ps
  have hsplit : splitOnChar '\n' (download_df t)
      = (t.header :: t.rows).map (joinWith ',') ++ [[]] := by
    unfold download_df
    exact splitOnChar_terminated '\n' _ hnl
  have hls : (splitOnChar '\n' (download_df t)).filter (fun l => !l.isEmpty)
      = joinWith ',' t.header :: t.rows.map (joinWith ',') := by
    rw [hsplit, List.filter_append]
    have h1 : ((t.header :: t.rows).map (joinWith ',')).filter (fun l => !l.isEmpty)
        = (t.header :: t.rows).map (joinWith ',') :=
      List.filter_eq_self.mpr (fun l hl => by
        simpa [List.isEmpty_iff] using hne l hl)
    rw [h1]
    simp
  have hheader : splitOnChar ',' (joinWith ',' t.header) = t.header :=
    splitOnChar_joinWith ',' t.header
      (by intro h; rw [h] at hw; simp at hw)
      (fun p hp => (hsafeH p hp).1)
  have hmap : (t.rows.map (joinWith ',')).map (splitOnChar ',') = t.rows := by
    rw [List.map_map]
    have : ∀ r ∈ t.rows, (splitOnChar ',' ∘ joinWith ',') r = r := by
      intro r hr
      refine splitOnChar_joinWith ',' r ?_ (fun p hp => (hsafeR r hr p hp).1)
      intro h
      have hlen := hrows r hr
      rw [h] at hlen
      simp only [List.length_nil] at hlen
      omega
    calc t.rows.map (splitOnChar ',' ∘ joinWith ',')
        = t.rows.map id := List.map_congr_left this
      _ = t.rows := List.map_id t.rows
  have hall : (t.rows.all (fun r => r.length ≤ t.header.length)) = true := by
    rw [List.all_eq_true]
    intro r hr
    simp [hrows r hr]
  unfold load_csv
  rw [hls]
  simp only [hheader, hmap, hall, if_true]

/-- A concrete well-formed two-column, two-row table for the C6
witness. -/
def demoTable : CsvTable :=
  ⟨["product_id".toList, "category".toList],
   [["1".toList, "Home".toList], ["2".toList, "Sports".toList]]⟩

/-- C6 witness: the round trip at a concrete table. -/
theorem c6_export_witness :
    load_csv (download_df demoTable) = some demoTable ∧
    filterCsv [] demoTable = some demoTable :=
  c6_export_roundtrip demoTable (by decide) (by decide) (by decide) (by decide)

/-! ### Cast lemmas relating the code-side `ℚ` statistics to the spec's
real-number formulas -/

theorem listMean_cast (xs : List ℚ) : ((listMean xs : ℚ) : ℝ) = specMean xs := by
  unfold listMean specMean
  rw [Rat.cast_div, Rat.cast_list_sum, Rat.cast_natCast]

theorem ssd_cast (xs : List ℚ) :
    ((ssd xs : ℚ) : ℝ) = (xs.map (fun x : ℚ => ((x : ℝ) - specMean xs) ^ 2)).sum := by
  unfold ssd
  rw [Rat.cast_list_sum, List.map_map]
  congr 1
  apply List.map_congr_left
  intro x _
  simp only [Function.comp_apply]
  push_cast
  rw [listMean_cast]

theorem semVal_eq_specSE (xs : List ℚ) : semVal xs = specSE xs := by
  unfold semVal specSE specSampleStd
  rw [ssd_cast]

/-- C3: for `n > 1` rows and a confidence level in `(0,1)`, the
confidence interval computed by `calculate_inferential_stats` is
exactly the spec's `(x̄ − t*·SE, x̄ + t*·SE)` with `SE = s/sqrt(n)`,
`s` the sample standard deviation with divisor `n−1`, and
`t* = tppf((1+confidenceLevel)/2, n−1)` — in particular
`scipy.stats.sem(·, ddof=1)` coincides with the spec's `s/sqrt(n)`. -/
theorem c3_confidence_interval_formula (tppf tsf : ℝ → ℕ → ℝ) (xs : List ℚ)
    (c μ : ℝ) (hn : 1 < xs.length) (hc0 : 0 < c) (hc1 : c < 1) :
    (calculate_inferential_stats tppf tsf xs c μ).ci_lower = some (specCI tppf xs c).1 ∧
    (calculate_inferential_stats tppf tsf xs c μ).ci_upper = some (specCI tppf xs c).2 := by
  have hng : ¬ xs.length ≤ 1 := by omega
  unfold calculate_inferential_stats sem specCI
  simp only [if_neg hng]
  rw [listMean_cast, semVal_eq_specSE]
  exact ⟨rfl, rfl⟩

/-- C3 witness: the interval formula at a concrete table, confidence
level and quantile function. -/
theorem c3_interval_witness :
    (calculate_inferential_stats (fun p _ => p) (fun _ _ => 0) [1, 2] 0.95 0).ci_lower
      = some (specCI (fun p _ => p) [1, 2] 0.95).1 ∧
    (calculate_inferential_stats (fun p _ => p) (fun _ _ => 0) [1, 2] 0.95 0).ci_upper
      = some (specCI (fun p _ => p) [1, 2] 0.95).2 :=
  c3_confidence_interval_formula (fun p _ => p) (fun _ _ => 0) [1, 2] 0.95 0
    (by norm_num) (by norm_num) (by norm_num)

/-- C4: for `n > 1` and confidence levels in the slider range
`(0.80, 0.99)`, the computed interval brackets the sample mean, and its
width is monotonically non-decreasing in the confidence level.  The two
properties of the abstract Student-t quantile used here — nonnegative
at probabilities `≥ 1/2` and monotone in the probability — are exactly
the textbook properties of `stats.t.ppf`. -/
theorem c4_interval_brackets_mean_width_monotone (tppf tsf : ℝ → ℕ → ℝ)
    (hmono : ∀ (df : ℕ) (p q : ℝ), 1 / 2 ≤ p → p ≤ q → tppf p df ≤ tppf q df)
    (hpos : ∀ (df : ℕ) (p : ℝ), 1 / 2 ≤ p → 0 ≤ tppf p df)
    (xs : List ℚ) (hn : 1 < xs.length) (c₁ c₂ μ : ℝ)
    (h1l : 0.80 < c₁) (h1u : c₁ < 0.99) (h2l : 0.80 < c₂) (h2u : c₂ < 0.99)
    (hcc : c₁ ≤ c₂) :
    (calculate_inferential_stats tppf tsf xs c₁ μ).ci_lower = some (ciVals tppf xs c₁).1 ∧
    (calculate_inferential_stats tppf tsf xs c₁ μ).ci_upper = some (ciVals tppf xs c₁).2 ∧
    (ciVals tppf xs c₁).1 ≤ (listMean xs : ℝ) ∧
    (listMean xs : ℝ) ≤ (ciVals tppf xs c₁).2 ∧
    (ciVals tppf xs c₁).2 - (ciVals tppf xs c₁).1
      ≤ (ciVals tppf xs c₂).2 - (ciVals tppf xs c₂).1 := by
  have hng : ¬ xs.length ≤ 1 := by omega
  have hs : 0 ≤ semVal xs := div_nonneg (Real.sqrt_nonneg _) (Real.sqrt_nonneg _)
  have ht1 : 0 ≤ tppf ((1 + c₁) / 2) (xs.length - 1) := hpos _ _ (by linarith)
  have hmargin1 : 0 ≤ tppf ((1 + c₁) / 2) (xs.length - 1) * semVal xs :=
    mul_nonneg ht1 hs
  have hts : tppf ((1 + c₁) / 2) (xs.length - 1) * semVal xs
      ≤ tppf ((1 + c₂) / 2) (xs.length - 1) * semVal xs :=
    mul_le_mul_of_nonneg_right (hmono _ _ _ (by linarith) (by linarith)) hs
  refine ⟨?_, ?_, ?_, ?_, ?_⟩
  · unfold calculate_inferential_stats sem ciVals
    simp only [if_neg hng]
    rfl
  · unfold calculate_inferential_stats sem ciVals
    simp only [if_neg hng]
    rfl
  · unfold ciVals
    simp only
    linarith
  · unfold ciVals
    simp only
    linarith
  · unfold ciVals
    simp only
    linarith

/-- C4 witness: the bracket and monotonicity facts at a concrete table
and the confidence levels 0.90 and 0.95. -/
theorem c4_interval_witness :
    (ciVals (fun p _ => p) [1, 2] 0.90).1 ≤ (listMean [1, 2] : ℝ) ∧
    (listMean [1, 2] : ℝ) ≤ (ciVals (fun p _ => p) [1, 2] 0.90).2 ∧
    (ciVals (fun p _ => p) [1, 2] 0.90).2 - (ciVals (fun p _ => p) [1, 2] 0.90).1
      ≤ (ciVals (fun p _ => p) [1, 2] 0.95).2 - (ciVals (fun p _ => p) [1, 2] 0.95).1 := by
  have h := c4_interval_brackets_mean_width_monotone (fun p _ => p) (fun _ _ => 0)
    (fun df p q h1 h2 => h2) (fun df p h1 => by linarith)
    [1, 2] (by norm_num) 0.90 0.95 0
    (by norm_num) (by norm_num) (by norm_num) (by norm_num) (by norm_num)
  exact ⟨h.2.2.1, h.2.2.2.1, h.2.2.2.2⟩

/-! ### Constant series -/

theorem listMean_const (xs : List ℚ) (k : ℚ) (hne : xs ≠ [])
    (hconst : ∀ x ∈ xs, x = k) : listMean xs = k := by
  unfold listMean
  rw [List.sum_eq_card_nsmul xs k hconst, nsmul_eq_mul]
  have hlen : (xs.length : ℚ) ≠ 0 := by
    simpa using (List.length_pos.mpr hne).ne'
  field_simp

theorem ssd_const (xs : List ℚ) (k : ℚ) (hne : xs ≠ [])
    (hconst : ∀ x ∈ xs, x = k) : ssd xs = 0 := by
  unfold ssd
  apply List.sum_eq_zero
  intro y hy
  rcases List.mem_map.mp hy with ⟨x, hx, rfl⟩
  rw [hconst x hx, listMean_const xs k hne hconst]
  ring

/-- C5 counterexample: on the constant series `[5,5,5]` (three rows,
`units_sold = 5` everywhere) tested against the hypothesized mean 5,
the sample standard deviation is 0 as the claim says, but the
t-statistic is NOT 0: `stats.ttest_1samp` divides `x̄ − μ = 0` by the
zero standard error, a float `0/0`, so the t-statistic (and p-value)
is NaN — undefined even though `n = 3 > 1`. -/
theorem c5_ttest_counterexample :
    sampleStd [5, 5, 5] = some 0 ∧
    (calculate_inferential_stats (fun _ _ => 0) (fun _ _ => 0) [5, 5, 5] 0.95 5).t_stat
      ≠ some 0 ∧
    (calculate_inferential_stats (fun _ _ => 0) (fun _ _ => 0) [5, 5, 5] 0.95 5).t_stat
      = none ∧
    (calculate_inferential_stats (fun _ _ => 0) (fun _ _ => 0) [5, 5, 5] 0.95 5).p_val
      = none := by
  have hssd : ssd [5, 5, 5] = 0 := by
    norm_num [ssd, listMean, List.map_cons, List.sum_cons]
  have hsem : semVal [5, 5, 5] = 0 := by
    unfold semVal
    rw [hssd]
    simp
  refine ⟨?_, ?_, ?_, ?_⟩
  · unfold sampleStd
    rw [hssd]
    norm_num
  · unfold calculate_inferential_stats sem
    simp [hsem]
  · unfold calculate_inferential_stats sem
    simp [hsem]
  · unfold calculate_inferential_stats sem
    simp [hsem]

/-- C5 amended: on a constant series the sample standard deviation is 0
whenever it is defined (`n ≥ 2`), and the one-sample t-test against the
constant yields an undefined (NaN) t-statistic and p-value for every
`n` — NaN from `0/0` when `n ≥ 2`, NaN from the undefined standard
error when `n ≤ 1`. -/
theorem c5_amended_constant_series (tppf tsf : ℝ → ℕ → ℝ) (xs : List ℚ) (k : ℚ)
    (c : ℝ) (hconst : ∀ x ∈ xs, x = k) :
    (2 ≤ xs.length → sampleStd xs = some 0) ∧
    (calculate_inferential_stats tppf tsf xs c (k : ℝ)).t_stat = none ∧
    (calculate_inferential_stats tppf tsf xs c (k : ℝ)).p_val = none := by
  by_cases hlen : xs.length ≤ 1
  · refine ⟨fun h => absurd h (by omega), ?_, ?_⟩
    · unfold calculate_inferential_stats sem
      simp [hlen]
    · unfold calculate_inferential_stats sem
      simp [hlen]
  · have hne : xs ≠ [] := by
      intro h
      rw [h] at hlen
      simp at hlen
    have hssd : ssd xs = 0 := ssd_const xs k hne hconst
    have hsem : semVal xs = 0 := by
      unfold semVal
      rw [hssd]
      simp
    refine ⟨fun _ => ?_, ?_, ?_⟩
    · unfold sampleStd
      rw [if_neg hlen, hssd]
      norm_num
    · unfold calculate_inferential_stats sem
      simp [hlen, hsem]
    · unfold calculate_inferential_stats sem
      simp [hlen, hsem]

/-- C5 amended witness: the amended statement at the constant series
`[7,7,7,7]` against hypothesized mean 7. -/
theorem c5_amended_witness :
    sampleStd [7, 7, 7, 7] = some 0 ∧
    (calculate_inferential_stats (fun _ _ => 1) (fun _ _ => 1) [7, 7, 7, 7] 0.9
      ((7 : ℚ) : ℝ)).t_stat = none ∧
    (calculate_inferential_stats (fun _ _ => 1) (fun _ _ => 1) [7, 7, 7, 7] 0.9
      ((7 : ℚ) : ℝ)).p_val = none := by
  have h := c5_amended_constant_series (fun _ _ => 1) (fun _ _ => 1) [7, 7, 7, 7] 7 0.9
    (by decide)
  exact ⟨h.1 (by norm_num), h.2.1, h.2.2⟩

/-- C8: with `n ≤ 1` rows both calculators still return (they are total
functions) and every degenerate quantity is NaN/undefined: the standard
error, both confidence-interval endpoints, the t-statistic and the
p-value are all `none`, and on the empty table the mean, median and
mode are `none` as well. -/
theorem c8_degenerate_rows_give_nan (tppf tsf : ℝ → ℕ → ℝ) (xs : List ℚ) (c μ : ℝ)
    (hn : xs.length ≤ 1) :
    sem xs = none ∧
    (calculate_inferential_stats tppf tsf xs c μ).ci_lower = none ∧
    (calculate_inferential_stats tppf tsf xs c μ).ci_upper = none ∧
    (calculate_inferential_stats tppf tsf xs c μ).t_stat = none ∧
    (calculate_inferential_stats tppf tsf xs c μ).p_val = none ∧
    (xs = [] → calculate_descriptive_stats xs
      = { mean_val := none, median_val := none, mode_val := none }) := by
  refine ⟨by simp [sem, hn], ?_, ?_, ?_, ?_, ?_⟩
  · unfold calculate_inferential_stats sem
    simp [hn]
  · unfold calculate_inferential_stats sem
    simp [hn]
  · unfold calculate_inferential_stats sem
    simp [hn]
  · unfold calculate_inferential_stats sem
    simp [hn]
  · rintro rfl
    rfl

/-- C8 witness: the degenerate behaviour at the empty table. -/
theorem c8_degenerate_witness :
    sem ([] : List ℚ) = none ∧
    (calculate_inferential_stats (fun _ _ => 0) (fun _ _ => 0) [] 0.95 20).ci_lower = none ∧
    (calculate_inferential_stats (fun _ _ => 0) (fun _ _ => 0) [] 0.95 20).ci_upper = none ∧
    (calculate_inferential_stats (fun _ _ => 0) (fun _ _ => 0) [] 0.95 20).t_stat = none ∧
    (calculate_inferential_stats (fun _ _ => 0) (fun _ _ => 0) [] 0.95 20).p_val = none ∧
    calculate_descriptive_stats []
      = { mean_val := none, median_val := none, mode_val := none } := by
  have h := c8_degenerate_rows_give_nan (fun _ _ => 0) (fun _ _ => 0) [] 0.95 20
    (by decide)
  exact ⟨h.1, h.2.1, h.2.2.1, h.2.2.2.1, h.2.2.2.2.1, h.2.2.2.2.2 rfl⟩

end SalesApp
